import Mathlib

/-!
Verification of the patient-similarity pipeline: a shallow embedding of the
core of `embeddings.py` (attention-mask-aware mean pooling),
`build_index.py` (index build, identity mapping, dimension checking) and
`search_index.py` (load, query, self-exclusion), with the FAISS library
calls (`normalize_L2`, `IndexFlatIP.search`) modelled from the
specification since the library is external to the repository.

Scalars are modelled exactly: rational numbers for the pooling and ranking
arithmetic, real numbers for the L2 normalizer (whose square root has no
rational model).
-/

namespace PatientSim

/-! ## Pooling encoder (embeddings.py, `generate_embeddings`) -/

/-- The small denominator floor 1e-9 of `tf.maximum(counts, 1e-9)`
(embeddings.py line 70). -/
def eps : ℚ := 1 / 1000000000

/-- Coordinate `d` of `summed = tf.reduce_sum(token_embeddings * mask_expanded, axis = 1)`
(embeddings.py line 67) for one example: `Σ_t M_t * H_t[d]`, where `H` is the
list of per-token hidden vectors and `M` the attention mask. -/
def maskedSumAt (M : List ℚ) (H : List (List ℚ)) (d : ℕ) : ℚ :=
  (List.zipWith (fun m h => m * h.getD d 0) M H).sum

/-- The tensor `counts = tf.reduce_sum(mask_expanded, axis = 1)` (embeddings.py
line 68) for one example: the number of unmasked tokens, as the sum of the
mask entries. -/
def counts (M : List ℚ) : ℚ := M.sum

/-- One example of `embeddings = summed / tf.maximum(counts, 1e-9)`
(embeddings.py line 70): the pooled vector of dimension `D`, coordinate `d`
being `(Σ_t M_t * H_t[d]) / max (Σ_t M_t) eps`. -/
def meanPool (H : List (List ℚ)) (M : List ℚ) (D : ℕ) : List ℚ :=
  (List.range D).map (fun d => maskedSumAt M H d / max (counts M) eps)

/-- embeddings.py `generate_embeddings`, after the external tokenizer/model
produced the batch `H` of token-vector matrices and the batch `M` of
attention masks: one pooled vector per example, in batch order. -/
def generate_embeddings (H : List (List (List ℚ))) (M : List (List ℚ)) (D : ℕ) :
    List (List ℚ) :=
  List.zipWith (fun h m => meanPool h m D) H M

theorem counts_replicate_one (n : ℕ) : counts (List.replicate n 1) = n := by
  simp [counts, List.sum_replicate]

theorem eps_lt_one : eps < 1 := by norm_num [eps]

theorem max_counts_of_one_le {q : ℚ} (h : 1 ≤ q) : max q eps = q :=
  max_eq_left (le_of_lt (lt_of_lt_of_le eps_lt_one h))

theorem maskedSumAt_replicate_one (H : List (List ℚ)) (n : ℕ) (d : ℕ)
    (h : H.length ≤ n) :
    maskedSumAt (List.replicate n 1) H d = (H.map (fun v => v.getD d 0)).sum := by
  induction H generalizing n with
  | nil => simp [maskedSumAt]
  | cons v H ih =>
      cases n with
      | zero => simp at h
      | succ m =>
          have hm : H.length ≤ m := by
            simp only [List.length_cons] at h; omega
          have ih' := ih m hm
          simp only [maskedSumAt, List.getD_eq_getElem?_getD] at ih' ⊢
          simp [List.replicate_succ, ih']

/-- All-ones mask: the pooled vector is the arithmetic mean of the token
vectors, coordinate by coordinate. -/
theorem meanPool_all_ones (H : List (List ℚ)) (n D : ℕ)
    (hn : H.length = n) (h1 : 1 ≤ n) :
    meanPool H (List.replicate n 1) D
      = (List.range D).map (fun d => (H.map (fun v => v.getD d 0)).sum / n) := by
  have hc : counts (List.replicate n 1) = (n : ℚ) := counts_replicate_one n
  have hmax : max (counts (List.replicate n 1)) eps = (n : ℚ) := by
    rw [hc]; exact max_counts_of_one_le (by exact_mod_cast h1)
  unfold meanPool
  refine List.map_congr_left (fun d _ => ?_)
  rw [hmax, maskedSumAt_replicate_one H n d (le_of_eq hn)]

theorem maskedSumAt_zero_mask (H : List (List ℚ)) (s d : ℕ) :
    maskedSumAt (List.replicate s 0) H d = 0 := by
  induction H generalizing s with
  | nil => simp [maskedSumAt]
  | cons v H ih =>
      cases s with
      | zero => simp [maskedSumAt]
      | succ m =>
          have ih' := ih m
          simp only [maskedSumAt, List.getD_eq_getElem?_getD] at ih' ⊢
          simp [List.replicate_succ, ih']

theorem maskedSumAt_single (H : List (List ℚ)) (t s d : ℕ)
    (hlen : H.length = t + 1 + s) :
    maskedSumAt (List.replicate t 0 ++ 1 :: List.replicate s 0) H d
      = (H.getD t []).getD d 0 := by
  induction t generalizing H with
  | zero =>
      cases H with
      | nil => simp only [List.length_nil] at hlen; omega
      | cons v H =>
          have hz := maskedSumAt_zero_mask H s d
          simp only [maskedSumAt, List.getD_eq_getElem?_getD] at hz ⊢
          simp [hz]
  | succ t ih =>
      cases H with
      | nil => simp only [List.length_nil] at hlen; omega
      | cons v H =>
          have hlen' : H.length = t + 1 + s := by
            simp only [List.length_cons] at hlen; omega
          have ih' := ih H hlen'
          simp only [maskedSumAt, List.getD_eq_getElem?_getD] at ih' ⊢
          simp [List.replicate_succ, ih']

theorem range_map_getD (v : List ℚ) :
    (List.range v.length).map (fun d => v.getD d 0) = v := by
  apply List.ext_getElem
  · simp
  · intro i h1 h2
    simp [List.getD_eq_getElem?_getD, List.getElem?_eq_getElem h2]

/-- Single active token at position `t` (mask `0ᵗ 1 0ˢ`): the pooled vector
is exactly that token's vector. -/
theorem meanPool_single_token (H : List (List ℚ)) (t s D : ℕ)
    (hlen : H.length = t + 1 + s) (hrow : (H.getD t []).length = D) :
    meanPool H (List.replicate t 0 ++ 1 :: List.replicate s 0) D = H.getD t [] := by
  have hc : counts (List.replicate t 0 ++ 1 :: List.replicate s 0) = 1 := by
    simp [counts, List.sum_append, List.sum_replicate]
  unfold meanPool
  rw [hc, max_counts_of_one_le (le_refl 1)]
  have : ∀ d ∈ List.range D,
      maskedSumAt (List.replicate t 0 ++ 1 :: List.replicate s 0) H d / 1
        = (fun d => (H.getD t []).getD d 0) d := by
    intro d _
    rw [div_one, maskedSumAt_single H t s d hlen]
  rw [List.map_congr_left this, ← hrow, range_map_getD]

/-- A padding token (mask entry 0) contributes nothing: dropping it leaves
the pooled vector unchanged. -/
theorem meanPool_padding (H : List (List ℚ)) (M : List ℚ) (h : List ℚ) (D : ℕ)
    (hlen : M.length = H.length) :
    meanPool (H ++ [h]) (M ++ [0]) D = meanPool H M D := by
  have hsum : ∀ d, maskedSumAt (M ++ [0]) (H ++ [h]) d = maskedSumAt M H d := by
    intro d
    unfold maskedSumAt
    rw [List.zipWith_append _ _ _ _ _ hlen]
    simp
  have hcnt : counts (M ++ [0]) = counts M := by simp [counts]
  unfold meanPool
  refine List.map_congr_left (fun d _ => ?_)
  rw [hsum d, hcnt]

theorem generate_embeddings_length (H : List (List (List ℚ))) (M : List (List ℚ))
    (D : ℕ) (h : M.length = H.length) :
    (generate_embeddings H M D).length = H.length := by
  simp [generate_embeddings, h]

theorem generate_embeddings_getD (H : List (List (List ℚ))) (M : List (List ℚ))
    (D b : ℕ) (h : M.length = H.length) (hb : b < H.length) :
    (generate_embeddings H M D).getD b [] = meanPool (H.getD b []) (M.getD b []) D := by
  have h1 : b < (generate_embeddings H M D).length := by
    rw [generate_embeddings_length H M D h]; exact hb
  have h2 : b < M.length := h ▸ hb
  rw [List.getD_eq_getElem _ _ h1, List.getD_eq_getElem _ _ hb, List.getD_eq_getElem _ _ h2]
  simp [generate_embeddings]

theorem meanPool_getD (H : List (List ℚ)) (M : List ℚ) (D d : ℕ) (hd : d < D) :
    (meanPool H M D).getD d 0 = maskedSumAt M H d / max (counts M) eps := by
  have h1 : d < (meanPool H M D).length := by simp [meanPool]; exact hd
  rw [List.getD_eq_getElem _ _ h1]
  simp [meanPool]

/-! ## Index build (build_index.py, main) -/

/-- One MongoDB document yielded by the build cursor
(build_index.py line 21): the filter requires the embedding field to exist,
and the projection keeps patient_id, embedding and vector_id; vector_id may
still be absent, read with doc.get. -/
structure PatientDoc where
  patient_id : String
  embedding : List ℚ
  vector_id : Option String
deriving DecidableEq

/-- A value stored in index_mapping.json. embeddings.py line 107 stores the
bare vector_id string; build_index.py lines 28-31 store an object holding
the patient_id and vector_id fields. -/
inductive MapVal where
  | bare (vector_id : String)
  | entry (patient_id : String) (vector_id : Option String)
deriving DecidableEq

/-- build_index.py lines 26-31: the identity map accumulated in the same
enumeration loop that collects the embeddings; key str(idx) of the idx-th
cursor document (modelled as the numeral it prints), value an object of its
patient_id and vector_id. -/
def buildMapping (docs : List PatientDoc) : List (ℕ × MapVal) :=
  docs.enum.map (fun p => (p.1, MapVal.entry p.2.patient_id p.2.vector_id))

/-- The call np.vstack(embeddings) (build_index.py line 37) on a non-empty
list of 1-D rows: the stacked matrix when all rows have equal length, an
uncaught ValueError otherwise. Modelled from numpy's documented behaviour;
the library is external to the repository. -/
def vstack (rows : List (List ℚ)) : Except String (List (List ℚ)) :=
  match rows with
  | [] => Except.error "need at least one array to stack"
  | r :: rs =>
      if rs.all (fun s => s.length == r.length) then Except.ok (r :: rs)
      else Except.error "all the input array dimensions must match exactly"

/-- The observable outcome of running build_index.py main: the process exit
status, and the contents written to patient.index (its rows; the in-place
normalize_L2 rescaling is modelled separately over ℝ and keeps row count and
order) and to index_mapping.json. -/
structure BuildResult where
  exitCode : ℕ
  printedNoEmbeddings : Bool
  indexRows : Option (List (List ℚ))
  mapping : Option (List (ℕ × MapVal))
deriving DecidableEq

/-- build_index.py main, lines 26-48, as a function of the documents the
cursor yields: with zero embeddings it prints an error and returns (exit
status 0, nothing written); otherwise np.vstack stacks the embeddings (an
uncaught ValueError on ragged rows terminates the process with a non-zero
status before any file is written) and the index and the mapping files are
both written. -/
def buildMain (docs : List PatientDoc) : BuildResult :=
  let embeddings := docs.map (fun d => d.embedding)
  if embeddings.isEmpty then ⟨0, true, none, none⟩
  else
    match vstack embeddings with
    | Except.error _ => ⟨1, false, none, none⟩
    | Except.ok rows => ⟨0, false, some rows, some (buildMapping docs)⟩

theorem vstack_ok_uniform (rows out : List (List ℚ)) (h : vstack rows = Except.ok out) :
    out = rows ∧ ∀ u ∈ rows, ∀ v ∈ rows, u.length = v.length := by
  cases rows with
  | nil => simp [vstack] at h
  | cons r rs =>
      by_cases hall : rs.all (fun s => s.length == r.length)
      · refine ⟨?_, ?_⟩
        · simp [vstack, hall] at h; exact h.symm
        · have hlen : ∀ s ∈ rs, s.length = r.length := by
            intro s hs
            exact Nat.beq_eq_true_eq _ _ |>.mp (List.all_eq_true.mp hall s hs)
          intro u hu v hv
          have hu' : u.length = r.length := by
            rcases List.mem_cons.mp hu with h' | h'
            · rw [h']
            · exact hlen u h'
          have hv' : v.length = r.length := by
            rcases List.mem_cons.mp hv with h' | h'
            · rw [h']
            · exact hlen v h'
          rw [hu', hv']
      · simp [vstack, hall] at h

theorem buildMain_ok (docs : List PatientDoc) (rows : List (List ℚ))
    (m : List (ℕ × MapVal)) (h : buildMain docs = ⟨0, false, some rows, some m⟩) :
    rows = docs.map (fun d => d.embedding) ∧ m = buildMapping docs
      ∧ ∀ u ∈ rows, ∀ v ∈ rows, u.length = v.length := by
  unfold buildMain at h
  by_cases he : (docs.map (fun d => d.embedding)).isEmpty
  · simp [he] at h
  · simp only [he, if_false, Bool.false_eq_true] at h
    cases hv : vstack (docs.map (fun d => d.embedding)) with
    | error e => rw [hv] at h; simp at h
    | ok out =>
        rw [hv] at h
        obtain ⟨hout, huni⟩ := vstack_ok_uniform _ _ hv
        simp only [BuildResult.mk.injEq, Option.some.injEq] at h
        obtain ⟨-, -, hor, hbm⟩ := h
        refine ⟨?_, hbm.symm, ?_⟩
        · rw [← hor, hout]
        · rw [← hor, hout]
          exact fun u hu v hv' => huni u hu v hv'

/-! ## Vector normalizer (faiss.normalize_L2) -/

/-- Squared L2 norm of a vector. -/
def normSq (v : List ℝ) : ℝ := (v.map (fun x => x * x)).sum

/-- Modelled from the spec: faiss.normalize_L2 (called at build_index.py
line 40 and search_index.py line 39) is library code external to the
repository; the spec defines the normalizer as v' = v / ||v||₂ with the
tolerate policy on the zero-vector edge case, a zero vector passing through
unchanged. -/
noncomputable def l2normalize (v : List ℝ) : List ℝ :=
  if normSq v = 0 then v else v.map (fun x => x / Real.sqrt (normSq v))

/-- build_index.py line 40: faiss.normalize_L2(embeddings) rescales every
stacked row before index.add inserts them, so the stored rows are exactly
the row-wise normalizations of the build embeddings. -/
noncomputable def buildNormalizedRows (rows : List (List ℝ)) : List (List ℝ) :=
  rows.map l2normalize

/-- search_index.py line 39: faiss.normalize_L2(search_vector) rescales the
query vector before index.search, with the same transform used at build
time. -/
noncomputable def queryNormalizedVector (v : List ℝ) : List ℝ := l2normalize v

theorem normSq_nonneg (v : List ℝ) : 0 ≤ normSq v := by
  refine List.sum_nonneg ?_
  intro x hx
  obtain ⟨y, _, rfl⟩ := List.mem_map.mp hx
  exact mul_self_nonneg y

theorem normSq_map_div (v : List ℝ) (s : ℝ) :
    normSq (v.map (fun x => x / s)) = normSq v / (s * s) := by
  induction v with
  | nil => simp [normSq]
  | cons x v ih =>
      simp only [normSq, List.map_cons, List.sum_cons] at ih ⊢
      rw [ih, div_mul_div_comm, add_div]

theorem normSq_l2normalize (v : List ℝ) (h : normSq v ≠ 0) :
    normSq (l2normalize v) = 1 := by
  unfold l2normalize
  rw [if_neg h, normSq_map_div, Real.mul_self_sqrt (normSq_nonneg v), div_self h]

/-! ## Similarity index query (search_index.py, main) -/

/-- Inner product of two vectors of equal dimension. -/
def dot (u v : List ℚ) : ℚ := (List.zipWith (fun a b => a * b) u v).sum

/-- Modelled from the spec: the ranking order of the flat inner-product
index (faiss is external to the repository). Row a ranks no later than row
b when its score is higher, or the scores are equal and its row index is no
larger (descending score, ties by ascending row index). -/
def rankLE (a b : ℕ × ℚ) : Prop := b.2 < a.2 ∨ (a.2 = b.2 ∧ a.1 ≤ b.1)

instance : DecidableRel rankLE := fun a b => by unfold rankLE; infer_instance

/-- Every stored row paired with its inner-product score against the query
vector, in row order. -/
def scoreRows (index : List (List ℚ)) (q : List ℚ) : List (ℕ × ℚ) :=
  index.enum.map (fun p => (p.1, dot q p.2))

/-- Modelled from the spec: Query(v, k) of the Similarity Index — the k
rows of highest inner-product score, descending, ties by ascending row
index. -/
def querySpec (index : List (List ℚ)) (q : List ℚ) (k : ℕ) : List (ℕ × ℚ) :=
  ((scoreRows index q).insertionSort rankLE).take k

/-- Modelled from the spec: index.search(search_vector, k)
(search_index.py line 40) returns exactly k (row, score) slots, the top
ranked rows first and, when the index has fewer than k rows, the remaining
slots padded with row index -1 (which no mapping key resolves). -/
def searchFlatIP (index : List (List ℚ)) (q : List ℚ) (k : ℕ) : List (ℤ × ℚ) :=
  let hits := (querySpec index q k).map (fun p => ((p.1 : ℤ), p.2))
  hits ++ List.replicate (k - hits.length) ((-1 : ℤ), 0)

/-- One patient document as the query service reads it: find_one returns
the whole document; the embedding and clinical_sentence fields may be
absent. -/
structure Patient where
  patient_id : String
  embedding : Option (List ℚ)
  clinical_sentence : Option String
deriving DecidableEq

/-- collection.find_one({patient_id: pid}) (search_index.py lines 27, 49):
the first stored document whose patient_id equals pid, if any. -/
def findPatient (db : List Patient) (pid : String) : Option Patient :=
  match db with
  | [] => none
  | p :: ps => if p.patient_id = pid then some p else findPatient ps pid

/-- index_mapping.get(str(idx)) (search_index.py line 44): the mapping keys
are the printed numerals of the build enumeration, so an integer row index
resolves when some natural-number key equals it; the -1 padding rows
resolve to nothing. -/
def resolveEntry (m : List (ℕ × MapVal)) (i : ℤ) : Option MapVal :=
  match m with
  | [] => none
  | e :: es => if (e.1 : ℤ) = i then some e.2 else resolveEntry es i

/-- The read map_data["patient_id"] (search_index.py line 45): succeeds on
the object form written by build_index.py; on the bare string written by
embeddings.py the subscript raises a TypeError (string indices must be
integers), modelled as having no result. -/
def mapPatientId : MapVal → Option String
  | MapVal.bare _ => none
  | MapVal.entry pid _ => some pid

/-- The excerpt sim_doc.get("clinical_sentence", "N/A")[:75] + "..."
(search_index.py line 54). -/
def excerpt (s : Option String) : String := (s.getD "N/A").take 75 ++ "..."

/-- One iteration of the result loop (search_index.py lines 43-55) on one
(row, score) slot: an unresolvable row or a self-match is skipped; a bare
mapping value crashes the process (TypeError on the string subscript), as
does a resolved patient_id absent from the store (find_one returns None and
the .get attribute access raises); otherwise one display row is produced. -/
def resultRow (db : List Patient) (queryId : String) (m : List (ℕ × MapVal))
    (hit : ℤ × ℚ) : Except String (Option (String × ℚ × String)) :=
  match resolveEntry m hit.1 with
  | none => Except.ok none
  | some (MapVal.bare _) => Except.error "TypeError: string indices must be integers"
  | some (MapVal.entry pid _) =>
      if pid = queryId then Except.ok none
      else
        match findPatient db pid with
        | none => Except.error "AttributeError: NoneType has no attribute get"
        | some d => Except.ok (some (pid, hit.2, excerpt d.clinical_sentence))

/-- The whole result loop over the search slots, accumulating the produced
display rows in order and propagating a crash. -/
def collectResults (db : List Patient) (queryId : String) (m : List (ℕ × MapVal)) :
    List (ℤ × ℚ) → Except String (List (String × ℚ × String))
  | [] => Except.ok []
  | hit :: hits =>
      match resultRow db queryId m hit with
      | Except.error e => Except.error e
      | Except.ok none => collectResults db queryId m hits
      | Except.ok (some r) =>
          match collectResults db queryId m hits with
          | Except.error e => Except.error e
          | Except.ok rs => Except.ok (r :: rs)

/-- The observable outcome of running search_index.py main: exit status,
whether the not-found message was printed, whether index.search ran, and
the table rows printed. -/
structure QueryOutcome where
  exitCode : ℕ
  notFound : Bool
  searched : Bool
  results : List (String × ℚ × String)
deriving DecidableEq

/-- search_index.py main, lines 19-58, as a function of the record store,
the two loaded artifacts and the (already zero-filled) patient id: a
missing patient or missing embedding prints the not-found message and
returns (exit 0, no search); otherwise the artifacts are loaded with no
cross-check, the index is searched for 6 = k+1 slots (comment: Self +
top 5) and the result loop runs; an uncaught exception in the loop exits
non-zero, otherwise the collected rows print and the process exits 0.
The faiss.normalize_L2 call on the search vector (line 39) is modelled in
the normalizer section over ℝ; it rescales the query by a positive factor,
which changes none of the facts stated here about the outcome. -/
def queryMain (db : List Patient) (index : List (List ℚ)) (m : List (ℕ × MapVal))
    (pid : String) : QueryOutcome :=
  match findPatient db pid with
  | none => ⟨0, true, false, []⟩
  | some p =>
      match p.embedding with
      | none => ⟨0, true, false, []⟩
      | some v =>
          match collectResults db pid m (searchFlatIP index v 6) with
          | Except.error _ => ⟨1, false, true, []⟩
          | Except.ok rs => ⟨0, false, true, rs⟩

theorem resolveEntry_mem (m : List (ℕ × MapVal)) (i : ℤ) (val : MapVal)
    (h : resolveEntry m i = some val) : ∃ e ∈ m, e.2 = val := by
  induction m with
  | nil => simp [resolveEntry] at h
  | cons e es ih =>
      unfold resolveEntry at h
      by_cases hi : (e.1 : ℤ) = i
      · rw [if_pos hi] at h
        exact ⟨e, List.mem_cons_self e es, Option.some.inj h⟩
      · rw [if_neg hi] at h
        obtain ⟨f, hf, hv⟩ := ih h
        exact ⟨f, List.mem_cons_of_mem e hf, hv⟩

theorem resultRow_ok_some (db : List Patient) (qid : String) (m : List (ℕ × MapVal))
    (hit : ℤ × ℚ) (r : String × ℚ × String)
    (h : resultRow db qid m hit = Except.ok (some r)) :
    r.1 ≠ qid ∧ ∃ e ∈ m, mapPatientId e.2 = some r.1 := by
  unfold resultRow at h
  cases hres : resolveEntry m hit.1 with
  | none => rw [hres] at h; simp at h
  | some val =>
      rw [hres] at h
      cases val with
      | bare s => simp at h
      | entry pid vid =>
          simp only [] at h
          by_cases hpid : pid = qid
          · simp [hpid] at h
          · rw [if_neg hpid] at h
            cases hfind : findPatient db pid with
            | none => rw [hfind] at h; simp at h
            | some d =>
                rw [hfind] at h
                simp only [Except.ok.injEq, Option.some.injEq] at h
                subst h
                refine ⟨hpid, ?_⟩
                obtain ⟨e, hem, hev⟩ := resolveEntry_mem m hit.1 _ hres
                exact ⟨e, hem, by rw [hev]; rfl⟩

theorem collectResults_ok (db : List Patient) (qid : String) (m : List (ℕ × MapVal)) :
    ∀ (hits : List (ℤ × ℚ)) (rs : List (String × ℚ × String)),
      collectResults db qid m hits = Except.ok rs →
      rs.length ≤ hits.length
      ∧ ∀ r ∈ rs, r.1 ≠ qid ∧ ∃ e ∈ m, mapPatientId e.2 = some r.1 := by
  intro hits
  induction hits with
  | nil =>
      intro rs h
      simp only [collectResults, Except.ok.injEq] at h
      subst h
      simp
  | cons hit hits ih =>
      intro rs h
      unfold collectResults at h
      cases hres : resultRow db qid m hit with
      | error e => rw [hres] at h; simp at h
      | ok o =>
          rw [hres] at h
          cases o with
          | none =>
              obtain ⟨hlen, hmem⟩ := ih rs h
              exact ⟨Nat.le_succ_of_le hlen, hmem⟩
          | some r =>
              cases hrec : collectResults db qid m hits with
              | error e => rw [hrec] at h; simp at h
              | ok rs' =>
                  rw [hrec] at h
                  simp only [Except.ok.injEq] at h
                  subst h
                  obtain ⟨hlen, hmem⟩ := ih rs' hrec
                  refine ⟨by simpa using Nat.succ_le_succ hlen, ?_⟩
                  intro x hx
                  rcases List.mem_cons.mp hx with hx | hx
                  · subst hx; exact resultRow_ok_some db qid m hit x hres
                  · exact hmem x hx

/-! ## Claim theorems -/

/-- C2: L2 normalization (v' = v / ||v||₂) is applied by the build to every
vector before insertion and by the query path to the query vector before
searching, with the same transform and the same zero-vector policy on both
sides; consequently every stored row has squared L2 norm 1, or is an
unmodified zero-norm vector under the tolerate policy. -/
theorem C2_l2_normalization_both_sides :
    (∀ rows : List (List ℝ), buildNormalizedRows rows = rows.map l2normalize)
    ∧ (∀ v : List ℝ, queryNormalizedVector v = l2normalize v)
    ∧ ∀ (rows : List (List ℝ)) (w : List ℝ), w ∈ buildNormalizedRows rows →
        normSq w = 1 ∨ (w ∈ rows ∧ normSq w = 0) := by
  refine ⟨fun _ => rfl, fun _ => rfl, ?_⟩
  intro rows w hw
  obtain ⟨u, hu, rfl⟩ := List.mem_map.mp hw
  by_cases h : normSq u = 0
  · right
    have heq : l2normalize u = u := by simp [l2normalize, h]
    rw [heq]
    exact ⟨hu, h⟩
  · left
    exact normSq_l2normalize u h

theorem C2_witness :
    normSq (l2normalize [(3 : ℝ), 4]) = 1
    ∨ (l2normalize [(3 : ℝ), 4] ∈ [[(3 : ℝ), 4]]
        ∧ normSq (l2normalize [(3 : ℝ), 4]) = 0) :=
  C2_l2_normalization_both_sides.2.2 [[(3 : ℝ), 4]] (l2normalize [(3 : ℝ), 4])
    (by simp [buildNormalizedRows])

/-- C1: for every batch, the pooling encoder returns one pooled vector per
text in input order, each equal to (Σ_t M_t · H_t) / max(Σ_t M_t, 1e-9)
computed per example over that example's token vectors and mask; with an
all-ones mask the pooled output is the arithmetic mean of the token
vectors, with a single active token it is that token's vector exactly, and
a padding token (mask 0) contributes nothing to the sum or the
denominator. -/
theorem C1_mean_pooling :
    (∀ (H : List (List (List ℚ))) (M : List (List ℚ)) (D : ℕ),
        M.length = H.length →
        (generate_embeddings H M D).length = H.length
        ∧ ∀ b, b < H.length →
            (generate_embeddings H M D).getD b [] = meanPool (H.getD b []) (M.getD b []) D
            ∧ ∀ d, d < D →
                ((generate_embeddings H M D).getD b []).getD d 0
                  = maskedSumAt (M.getD b []) (H.getD b []) d
                      / max (counts (M.getD b [])) eps)
    ∧ (∀ (H : List (List ℚ)) (n D : ℕ), H.length = n → 1 ≤ n →
        meanPool H (List.replicate n 1) D
          = (List.range D).map (fun d => (H.map (fun v => v.getD d 0)).sum / n))
    ∧ (∀ (H : List (List ℚ)) (t s D : ℕ),
        H.length = t + 1 + s → (H.getD t []).length = D →
        meanPool H (List.replicate t 0 ++ 1 :: List.replicate s 0) D = H.getD t [])
    ∧ (∀ (H : List (List ℚ)) (M : List ℚ) (h : List ℚ) (D : ℕ),
        M.length = H.length →
        meanPool (H ++ [h]) (M ++ [0]) D = meanPool H M D) := by
  refine ⟨?_, meanPool_all_ones, meanPool_single_token, meanPool_padding⟩
  intro H M D hlen
  refine ⟨generate_embeddings_length H M D hlen, ?_⟩
  intro b hb
  refine ⟨generate_embeddings_getD H M D b hlen hb, ?_⟩
  intro d hd
  rw [generate_embeddings_getD H M D b hlen hb, meanPool_getD _ _ _ _ hd]

theorem C1_witness :
    meanPool [[(1 : ℚ), 2], [3, 4]] (List.replicate 2 1) 2
      = (List.range 2).map
          (fun d => (([[(1 : ℚ), 2], [3, 4]].map (fun v => v.getD d 0)).sum) / ((2 : ℕ) : ℚ)) :=
  C1_mean_pooling.2.1 [[(1 : ℚ), 2], [3, 4]] 2 2 rfl (by norm_num)

/-- C3: for every non-empty build input, the identity map produced by the
build has ordinal keys exactly 0..N-1 with no gaps or duplicates, where N
is the row count of the index, and map entry i holds the identity of the
document whose embedding was inserted as index row i (insertion order). -/
theorem C3_identity_map_ordinals :
    ∀ (docs : List PatientDoc) (rows : List (List ℚ)) (m : List (ℕ × MapVal)),
      docs ≠ [] → buildMain docs = ⟨0, false, some rows, some m⟩ →
      m.map Prod.fst = List.range rows.length
      ∧ (m.map Prod.fst).Nodup
      ∧ rows.length = docs.length
      ∧ ∀ i, i < docs.length →
          rows.getD i [] = (docs.getD i ⟨"", [], none⟩).embedding
          ∧ m.getD i (0, MapVal.bare "")
              = (i, MapVal.entry (docs.getD i ⟨"", [], none⟩).patient_id
                  (docs.getD i ⟨"", [], none⟩).vector_id) := by
  intro docs rows m hne hmain
  obtain ⟨hrows, hm, _⟩ := buildMain_ok docs rows m hmain
  subst hrows; subst hm
  have hrl : (docs.map (fun d => d.embedding)).length = docs.length := by simp
  have hkeys : (buildMapping docs).map Prod.fst = List.range docs.length := by
    unfold buildMapping
    rw [List.map_map]
    have hco : (Prod.fst ∘ fun p : ℕ × PatientDoc =>
        (p.1, MapVal.entry p.2.patient_id p.2.vector_id)) = Prod.fst := rfl
    rw [hco, List.enum_map_fst]
  refine ⟨by rw [hrl, hkeys], by rw [hkeys]; exact List.nodup_range _,
    hrl, ?_⟩
  intro i hi
  constructor
  · have h1 : i < (docs.map (fun d => d.embedding)).length := by rw [hrl]; exact hi
    rw [List.getD_eq_getElem _ _ h1, List.getD_eq_getElem _ _ hi]
    simp
  · have h2 : i < (buildMapping docs).length := by
      simp only [buildMapping, List.length_map, List.enum_length]
      exact hi
    rw [List.getD_eq_getElem _ _ h2, List.getD_eq_getElem _ _ hi]
    simp [buildMapping]

/-- A two-document build input used to instantiate the build theorems. -/
def sampleDocs : List PatientDoc :=
  [⟨"p1", [1, 0], some "v1"⟩, ⟨"p2", [0, 1], none⟩]

theorem C3_witness :
    (buildMapping sampleDocs).map Prod.fst
        = List.range ([[(1 : ℚ), 0], [0, 1]] : List (List ℚ)).length
    ∧ ((buildMapping sampleDocs).map Prod.fst).Nodup
    ∧ ([[(1 : ℚ), 0], [0, 1]] : List (List ℚ)).length = sampleDocs.length
    ∧ ∀ i, i < sampleDocs.length →
        ([[(1 : ℚ), 0], [0, 1]] : List (List ℚ)).getD i []
            = (sampleDocs.getD i ⟨"", [], none⟩).embedding
        ∧ (buildMapping sampleDocs).getD i (0, MapVal.bare "")
            = (i, MapVal.entry (sampleDocs.getD i ⟨"", [], none⟩).patient_id
                (sampleDocs.getD i ⟨"", [], none⟩).vector_id) :=
  C3_identity_map_ordinals sampleDocs [[1, 0], [0, 1]] (buildMapping sampleDocs)
    (by decide) (by decide)

instance : IsTrans (ℕ × ℚ) rankLE := by
  constructor
  intro a b c hab hbc
  rcases hab with h1 | ⟨h1, h1a⟩
  · rcases hbc with h2 | ⟨h2, _⟩
    · exact Or.inl (lt_trans h2 h1)
    · exact Or.inl (h2 ▸ h1)
  · rcases hbc with h2 | ⟨h2, h2a⟩
    · exact Or.inl (h1 ▸ h2)
    · exact Or.inr ⟨h1.trans h2, le_trans h1a h2a⟩

instance : IsTotal (ℕ × ℚ) rankLE := by
  constructor
  intro a b
  rcases lt_trichotomy a.2 b.2 with h | h | h
  · exact Or.inr (Or.inl h)
  · rcases Nat.le_total a.1 b.1 with h1 | h1
    · exact Or.inl (Or.inr ⟨h, h1⟩)
    · exact Or.inr (Or.inr ⟨h.symm, h1⟩)
  · exact Or.inl (Or.inl h)

theorem scoreRows_fst (index : List (List ℚ)) (q : List ℚ) :
    (scoreRows index q).map Prod.fst = List.range index.length := by
  unfold scoreRows
  rw [List.map_map]
  have hco : (Prod.fst ∘ fun p : ℕ × List ℚ => (p.1, dot q p.2)) = Prod.fst := rfl
  rw [hco, List.enum_map_fst]

/-- C5: for every query vector v and k, the result list of Query(v, k) is
sorted by non-increasing similarity score, and among results with equal
scores the ordinal row indices are strictly increasing. Query is modelled
from the spec (the flat inner-product index is external library code). -/
theorem C5_query_ranking :
    ∀ (index : List (List ℚ)) (q : List ℚ) (k : ℕ),
      List.Pairwise (fun a b : ℕ × ℚ => b.2 < a.2 ∨ (a.2 = b.2 ∧ a.1 < b.1))
        (querySpec index q k) := by
  intro index q k
  have hsorted : List.Pairwise rankLE ((scoreRows index q).insertionSort rankLE) :=
    List.sorted_insertionSort rankLE (scoreRows index q)
  have hlt : List.Pairwise (fun a b : ℕ × ℚ => a.1 < b.1) (scoreRows index q) := by
    have hr : List.Pairwise (· < ·) ((scoreRows index q).map Prod.fst) := by
      rw [scoreRows_fst]; exact List.pairwise_lt_range _
    exact List.pairwise_map.mp hr
  have hne : List.Pairwise (fun a b : ℕ × ℚ => a.1 ≠ b.1)
      ((scoreRows index q).insertionSort rankLE) := by
    have hperm := List.perm_insertionSort rankLE (scoreRows index q)
    exact (List.Perm.pairwise_iff (fun h => h.symm) hperm).mpr
      (hlt.imp (fun h => Nat.ne_of_lt h))
  have hcomb := hsorted.and hne
  have htake : List.Pairwise
      (fun a b : ℕ × ℚ => rankLE a b ∧ a.1 ≠ b.1) (querySpec index q k) :=
    List.Pairwise.sublist (List.take_sublist _ _) hcomb
  refine htake.imp ?_
  intro a b ⟨hle, hnefst⟩
  rcases hle with h | ⟨h, h1⟩
  · exact Or.inl h
  · exact Or.inr ⟨h, lt_of_le_of_ne h1 hnefst⟩

/-! ## Embedding-stage mapping (embeddings.py, main loop) -/

/-- One record of patient_sentences.json (embeddings.py lines 79-95). -/
structure SentenceRec where
  patient_id : String
  sentence : String
deriving DecidableEq

/-- embeddings.py line 30. -/
def EMBEDDING_VERSION : String := "v1"

/-- embeddings.py line 31. -/
def BATCH_SIZE : ℕ := 8

/-- embeddings.py line 103: the vector id string built for one patient. -/
def vectorIdOf (pid : String) : String :=
  "vec_patient-" ++ pid ++ "_" ++ EMBEDDING_VERSION

/-- embeddings.py lines 91-107: the batched main loop from offset i on.
Each batch is the slice patient_data[i : i + BATCH_SIZE]; its j-th member
is recorded under key str(i + j) (the faiss_index) with the bare vector_id
string as the mapping value. -/
def embedLoop (data : List SentenceRec) (i : ℕ) : List (ℕ × MapVal) :=
  if _h : i < data.length then
    ((data.drop i).take BATCH_SIZE).enum.map
      (fun p => (i + p.1, MapVal.bare (vectorIdOf p.2.patient_id)))
      ++ embedLoop data (i + BATCH_SIZE)
  else []
termination_by data.length - i
decreasing_by simp only [BATCH_SIZE]; omega

/-- The index_mapping dict written by embeddings.py (lines 87, 131): the
whole batched loop started at offset 0. -/
def embedStageMapping (data : List SentenceRec) : List (ℕ × MapVal) :=
  embedLoop data 0

theorem embedLoop_bare (data : List SentenceRec) :
    ∀ (n i : ℕ), data.length - i ≤ n →
      ∀ e ∈ embedLoop data i, ∃ s, e.2 = MapVal.bare s := by
  intro n
  induction n with
  | zero =>
      intro i h e he
      rw [embedLoop, dif_neg (by omega)] at he
      simp at he
  | succ n ih =>
      intro i h e he
      by_cases hi : i < data.length
      · rw [embedLoop, dif_pos hi] at he
        rcases List.mem_append.mp he with he | he
        · obtain ⟨p, _, rfl⟩ := List.mem_map.mp he
          exact ⟨vectorIdOf p.2.patient_id, rfl⟩
        · exact ih (i + BATCH_SIZE) (by simp only [BATCH_SIZE]; omega) e he
      · rw [embedLoop, dif_neg hi] at he
        simp at he

theorem embedLoop_keys (data : List SentenceRec) :
    ∀ (n i : ℕ), data.length - i ≤ n →
      (embedLoop data i).map Prod.fst = List.range' i (data.length - i) := by
  intro n
  induction n with
  | zero =>
      intro i h
      rw [embedLoop, dif_neg (by omega)]
      have h0 : data.length - i = 0 := by omega
      rw [h0]
      rfl
  | succ n ih =>
      intro i h
      by_cases hi : i < data.length
      · rw [embedLoop, dif_pos hi, List.map_append, List.map_map]
        have hslice : (((data.drop i).take BATCH_SIZE).enum.map
            (Prod.fst ∘ fun p : ℕ × SentenceRec =>
              (i + p.1, MapVal.bare (vectorIdOf p.2.patient_id))))
            = List.range' i (min BATCH_SIZE (data.length - i)) := by
          have hco : (Prod.fst ∘ fun p : ℕ × SentenceRec =>
              (i + p.1, MapVal.bare (vectorIdOf p.2.patient_id)))
              = (fun x => i + x) ∘ Prod.fst := rfl
          rw [hco, ← List.map_map, List.enum_map_fst, List.length_take,
            List.length_drop, List.range'_eq_map_range]
        rw [hslice, ih (i + BATCH_SIZE) (by simp only [BATCH_SIZE]; omega)]
        by_cases hB : i + BATCH_SIZE ≤ data.length
        · have hmin : min BATCH_SIZE (data.length - i) = BATCH_SIZE := by omega
          rw [hmin]
          have := List.range'_append i BATCH_SIZE (data.length - (i + BATCH_SIZE)) 1
          simp only [one_mul] at this
          rw [this]
          congr 1
          omega
        · have hmin : min BATCH_SIZE (data.length - i) = data.length - i := by omega
          have hnil : data.length - (i + BATCH_SIZE) = 0 := by omega
          rw [hmin, hnil]
          simp
      · rw [embedLoop, dif_neg hi]
        have h0 : data.length - i = 0 := by omega
        rw [h0]
        rfl

theorem embedStageMapping_keys (data : List SentenceRec) :
    (embedStageMapping data).map Prod.fst = List.range data.length := by
  unfold embedStageMapping
  rw [embedLoop_keys data (data.length - 0) 0 (le_refl _), List.range_eq_range']
  congr 1

theorem searchFlatIP_length (index : List (List ℚ)) (q : List ℚ) (k : ℕ) :
    (searchFlatIP index q k).length = k := by
  have h : (querySpec index q k).length ≤ k := by
    unfold querySpec
    exact List.length_take_le k _
  simp only [searchFlatIP, List.length_append, List.length_map, List.length_replicate]
  omega

theorem collectResults_all_self (db : List Patient) (qid : String)
    (m : List (ℕ × MapVal)) (hall : ∀ e ∈ m, mapPatientId e.2 = some qid) :
    ∀ hits : List (ℤ × ℚ), collectResults db qid m hits = Except.ok [] := by
  intro hits
  induction hits with
  | nil => rfl
  | cons hit hits ih =>
      have hrow : resultRow db qid m hit = Except.ok none := by
        unfold resultRow
        cases hres : resolveEntry m hit.1 with
        | none => rfl
        | some val =>
            obtain ⟨e, hem, hev⟩ := resolveEntry_mem m hit.1 val hres
            have hpid := hall e hem
            rw [hev] at hpid
            cases val with
            | bare s => simp [mapPatientId] at hpid
            | entry pid vid =>
                simp only [mapPatientId, Option.some.injEq] at hpid
                subst hpid
                simp
      unfold collectResults
      rw [hrow, ih]

theorem collectResults_no_crash (db : List Patient) (qid : String)
    (m : List (ℕ × MapVal))
    (hm : ∀ e ∈ m, ∃ pid2 vid, e.2 = MapVal.entry pid2 vid
        ∧ (pid2 = qid ∨ findPatient db pid2 ≠ none)) :
    ∀ hits : List (ℤ × ℚ), ∃ rs, collectResults db qid m hits = Except.ok rs := by
  intro hits
  induction hits with
  | nil => exact ⟨[], rfl⟩
  | cons hit hits ih =>
      obtain ⟨rs, hrs⟩ := ih
      have hrow : ∃ o, resultRow db qid m hit = Except.ok o := by
        unfold resultRow
        cases hres : resolveEntry m hit.1 with
        | none => exact ⟨none, rfl⟩
        | some val =>
            obtain ⟨e, hem, hev⟩ := resolveEntry_mem m hit.1 val hres
            obtain ⟨pid2, vid, hval, hdb⟩ := hm e hem
            have hv2 : val = MapVal.entry pid2 vid := by rw [← hev, hval]
            subst hv2
            by_cases hq : pid2 = qid
            · exact ⟨none, by simp [hq]⟩
            · have hfind : findPatient db pid2 ≠ none := by
                rcases hdb with h | h
                · exact absurd h hq
                · exact h
              cases hfd : findPatient db pid2 with
              | none => exact absurd hfd hfind
              | some d =>
                  exact ⟨some (pid2, hit.2, excerpt d.clinical_sentence),
                    by simp [hq, hfd]⟩
      obtain ⟨o, ho⟩ := hrow
      cases o with
      | none => exact ⟨rs, by unfold collectResults; rw [ho, hrs]⟩
      | some r => exact ⟨r :: rs, by unfold collectResults; rw [ho, hrs]⟩

/-- A six-row index of pairwise orthogonal unit vectors. -/
def sampleIndex6 : List (List ℚ) :=
  [[1, 0, 0, 0, 0, 0], [0, 1, 0, 0, 0, 0], [0, 0, 1, 0, 0, 0],
   [0, 0, 0, 1, 0, 0], [0, 0, 0, 0, 1, 0], [0, 0, 0, 0, 0, 1]]

/-- A build-stage mapping for the six rows, naming patients p1..p6. -/
def sampleMapping6 : List (ℕ × MapVal) :=
  [(0, MapVal.entry "p1" none), (1, MapVal.entry "p2" none),
   (2, MapVal.entry "p3" none), (3, MapVal.entry "p4" none),
   (4, MapVal.entry "p5" none), (5, MapVal.entry "p6" none)]

/-- A record store holding the query patient p0 (embedded, but absent from
the index, as happens whenever the index was built before p0 was embedded)
and the six indexed patients. -/
def sampleDb : List Patient :=
  [⟨"p0", some [1, 0, 0, 0, 0, 0], some "s0"⟩,
   ⟨"p1", some [1, 0, 0, 0, 0, 0], some "s1"⟩,
   ⟨"p2", some [0, 1, 0, 0, 0, 0], some "s2"⟩,
   ⟨"p3", some [0, 0, 1, 0, 0, 0], some "s3"⟩,
   ⟨"p4", some [0, 0, 0, 1, 0, 0], some "s4"⟩,
   ⟨"p5", some [0, 0, 0, 0, 1, 0], some "s5"⟩,
   ⟨"p6", some [0, 0, 0, 0, 0, 1], some "s6"⟩]

/-- A one-patient store and a mapping whose every entry names that same
patient: every search hit is a self-match. -/
def selfDb : List Patient := [⟨"p0", some [1], some "s0"⟩]

/-- The mapping paired with `selfDb`. -/
def selfMapping : List (ℕ × MapVal) := [(0, MapVal.entry "p0" none)]

/-- A store of two patients for the row-count-mismatch scenario. -/
def mismDb : List Patient :=
  [⟨"q0", some [1, 0], some "t0"⟩, ⟨"q1", some [0, 1], some "t1"⟩]

/-- A two-row index whose mapping `mismMapping` has only one entry. -/
def mismIndex : List (List ℚ) := [[1, 0], [0, 1]]

/-- A one-entry mapping: one entry fewer than `mismIndex` has rows. -/
def mismMapping : List (ℕ × MapVal) := [(0, MapVal.entry "q1" none)]

/-- A build input whose two embeddings have different lengths. -/
def raggedDocs : List PatientDoc :=
  [⟨"p1", [1, 0], none⟩, ⟨"p2", [1], none⟩]

/-- C4 counterexample: patient p0 is stored and embedded but absent from
the six-row index, so none of the 6 = k+1 search hits is a self-match and
all six survive; the query prints six results, not at most k = 5 as the
claim requires ("truncates the remainder to at most k"). -/
theorem C4_counterexample :
    ¬ ((queryMain sampleDb sampleIndex6 sampleMapping6 "p0").results.length ≤ 5) := by
  norm_num +decide [queryMain, findPatient, collectResults, resultRow, resolveEntry,
    searchFlatIP, querySpec, scoreRows, dot, List.insertionSort, List.orderedInsert,
    rankLE, mapPatientId, sampleDb, sampleIndex6, sampleMapping6]

/-- C4 amended: the query service searches the index for k+1 = 6 slots,
removes every slot whose row is absent from the identity map and every
result whose resolved identity equals the query identity, and returns all
remaining results without truncating to k — so at most k+1 of them, each
with a non-query identity resolved through the mapping; and when every
mapping entry resolves to the query identity it returns an empty result
with exit status zero, not an error. -/
theorem C4_amended_self_exclusion :
    (∀ (db : List Patient) (index : List (List ℚ)) (m : List (ℕ × MapVal))
        (pid : String) (p : Patient) (v : List ℚ) (rs : List (String × ℚ × String)),
        findPatient db pid = some p → p.embedding = some v →
        queryMain db index m pid = ⟨0, false, true, rs⟩ →
        rs.length ≤ 6 ∧ ∀ r ∈ rs, r.1 ≠ pid ∧ ∃ e ∈ m, mapPatientId e.2 = some r.1)
    ∧ ∀ (db : List Patient) (index : List (List ℚ)) (m : List (ℕ × MapVal))
        (pid : String) (p : Patient) (v : List ℚ),
        findPatient db pid = some p → p.embedding = some v →
        (∀ e ∈ m, mapPatientId e.2 = some pid) →
        queryMain db index m pid = ⟨0, false, true, []⟩ := by
  constructor
  · intro db index m pid p v rs hfind hemb hmain
    unfold queryMain at hmain
    rw [hfind] at hmain
    simp only [] at hmain
    rw [hemb] at hmain
    simp only [] at hmain
    cases hcol : collectResults db pid m (searchFlatIP index v 6) with
    | error e => rw [hcol] at hmain; simp at hmain
    | ok rs2 =>
        rw [hcol] at hmain
        simp only [QueryOutcome.mk.injEq] at hmain
        obtain ⟨-, -, -, hrs⟩ := hmain
        subst hrs
        obtain ⟨hlen, hmem⟩ := collectResults_ok db pid m _ rs2 hcol
        rw [searchFlatIP_length] at hlen
        exact ⟨hlen, hmem⟩
  · intro db index m pid p v hfind hemb hall
    unfold queryMain
    rw [hfind]
    simp only []
    rw [hemb]
    simp only []
    rw [collectResults_all_self db pid m hall]

theorem C4_witness :
    queryMain selfDb [[1]] selfMapping "p0" = ⟨0, false, true, []⟩ :=
  C4_amended_self_exclusion.2 selfDb [[1]] selfMapping "p0"
    ⟨"p0", some [1], some "s0"⟩ [1] (by decide) rfl (by decide)

/-- C6 counterexample: loading a one-entry mapping against a two-row index
does not fail: the query proceeds to search the index and exits zero,
contradicting the claimed CorruptArtifact failure on a row-count
mismatch. -/
theorem C6_counterexample :
    mismIndex.length ≠ mismMapping.length
    ∧ (queryMain mismDb mismIndex mismMapping "q0").searched = true
    ∧ (queryMain mismDb mismIndex mismMapping "q0").exitCode = 0 := by
  norm_num +decide [queryMain, findPatient, collectResults, resultRow, resolveEntry,
    searchFlatIP, querySpec, scoreRows, dot, List.insertionSort, List.orderedInsert,
    rankLE, mapPatientId, mismDb, mismIndex, mismMapping]

/-- C6 amended: load performs no validation of the index row count against
the identity-map size: for any index and mapping, matched or mismatched,
the query proceeds to search and (when every mapping entry is in the build
object format and resolvable in the store) answers with exit status zero,
silently skipping search hits whose row is absent from the mapping, every
returned result resolving through some mapping entry. -/
theorem C6_amended_load_no_validation :
    ∀ (db : List Patient) (index : List (List ℚ)) (m : List (ℕ × MapVal))
      (pid : String) (p : Patient) (v : List ℚ),
      findPatient db pid = some p → p.embedding = some v →
      (∀ e ∈ m, ∃ pid2 vid, e.2 = MapVal.entry pid2 vid
          ∧ (pid2 = pid ∨ findPatient db pid2 ≠ none)) →
      ∃ rs, queryMain db index m pid = ⟨0, false, true, rs⟩
        ∧ ∀ r ∈ rs, ∃ e ∈ m, mapPatientId e.2 = some r.1 := by
  intro db index m pid p v hfind hemb hm
  obtain ⟨rs, hrs⟩ := collectResults_no_crash db pid m hm (searchFlatIP index v 6)
  refine ⟨rs, ?_, ?_⟩
  · unfold queryMain
    rw [hfind]
    simp only []
    rw [hemb]
    simp only []
    rw [hrs]
  · exact fun r hr => ((collectResults_ok db pid m _ rs hrs).2 r hr).2

theorem C6_witness :
    ∃ rs, queryMain mismDb mismIndex mismMapping "q0" = ⟨0, false, true, rs⟩
      ∧ ∀ r ∈ rs, ∃ e ∈ mismMapping, mapPatientId e.2 = some r.1 :=
  C6_amended_load_no_validation mismDb mismIndex mismMapping "q0"
    ⟨"q0", some [1, 0], some "t0"⟩ [1, 0] (by decide) rfl
    (by
      intro e he
      have he2 : e = (0, MapVal.entry "q1" none) := by
        simpa [mismMapping] using he
      subst he2
      exact ⟨"q1", none, rfl, Or.inr (by decide)⟩)

/-- C7 counterexample: with zero embedded vectors, build_index.py main
prints its error message and returns normally, so the process exit status
is 0, not non-zero as the claim states. -/
theorem C7_counterexample :
    (buildMain []).printedNoEmbeddings = true ∧ ¬ (buildMain []).exitCode ≠ 0 := by
  decide

/-- C7 amended: with zero embedded vectors the build reports the empty
input (the no-embeddings error message) and writes neither the index nor
the mapping, but the process exits zero rather than non-zero. -/
theorem C7_amended_empty_input :
    ∀ docs : List PatientDoc, docs = [] → buildMain docs = ⟨0, true, none, none⟩ := by
  intro docs h
  subst h
  rfl

theorem C7_witness : buildMain [] = ⟨0, true, none, none⟩ :=
  C7_amended_empty_input [] rfl

/-- C8: a build input containing two vectors of different lengths fails
fatally before any index is produced (the uncaught ValueError from
np.vstack terminates the build with exit status 1 and nothing written),
and conversely every successfully built index has rows of one uniform
dimension. -/
theorem C8_uniform_dimension :
    (∀ docs : List PatientDoc,
        (∃ d1 ∈ docs, ∃ d2 ∈ docs, d1.embedding.length ≠ d2.embedding.length) →
        buildMain docs = ⟨1, false, none, none⟩)
    ∧ ∀ (docs : List PatientDoc) (rows : List (List ℚ)) (m : List (ℕ × MapVal)),
        buildMain docs = ⟨0, false, some rows, some m⟩ →
        ∀ u ∈ rows, ∀ v ∈ rows, u.length = v.length := by
  constructor
  · intro docs hmis
    obtain ⟨d1, hd1, d2, hd2, hne⟩ := hmis
    unfold buildMain
    have hne2 : ¬ (docs.map (fun d => d.embedding)).isEmpty = true := by
      cases docs with
      | nil => simp at hd1
      | cons a l => simp
    rw [if_neg hne2]
    cases hv : vstack (docs.map (fun d => d.embedding)) with
    | error e => rfl
    | ok out =>
        exfalso
        obtain ⟨-, huni⟩ := vstack_ok_uniform _ _ hv
        exact hne (huni _ (List.mem_map_of_mem _ hd1) _ (List.mem_map_of_mem _ hd2))
  · intro docs rows m h
    exact (buildMain_ok docs rows m h).2.2

theorem C8_witness : buildMain raggedDocs = ⟨1, false, none, none⟩ :=
  C8_uniform_dimension.1 raggedDocs
    ⟨⟨"p1", [1, 0], none⟩, by decide, ⟨"p2", [1], none⟩, by decide, by decide⟩

/-- C9: a query identifier with no stored record, or whose record lacks an
embedding vector, prints the not-found message and returns without
performing a search, and the process exits zero (a user error, not a
system fault). -/
theorem C9_not_found_exits_zero :
    ∀ (db : List Patient) (index : List (List ℚ)) (m : List (ℕ × MapVal)) (pid : String),
      (findPatient db pid = none ∨ ∃ p, findPatient db pid = some p ∧ p.embedding = none) →
      queryMain db index m pid = ⟨0, true, false, []⟩ := by
  intro db index m pid h
  unfold queryMain
  rcases h with h | ⟨p, hp, he⟩
  · rw [h]
  · rw [hp]
    simp only []
    rw [he]

theorem C9_witness : queryMain [] [] [] "0001" = ⟨0, true, false, []⟩ :=
  C9_not_found_exits_zero [] [] [] "0001" (Or.inl rfl)

/-- A one-record embedding-stage input. -/
def sampleSentences : List SentenceRec := [⟨"0001", "hi"⟩]

/-- C10: the embedding stage and the build stage write index_mapping.json
in incompatible formats. Both key their rows 0..N-1 in insertion order,
but for every row the embedding stage stores a bare vector_id string while
the build stage stores an object with patient_id and vector_id fields; the
query service's identity resolution reads the patient_id field, so it
succeeds on every entry of a build-stage mapping and fails (the TypeError
crash of a string subscript) on every entry of an embedding-stage
mapping. -/
theorem C10_mapping_formats_incompatible :
    (∀ (data : List SentenceRec) (e : ℕ × MapVal), e ∈ embedStageMapping data →
        (∃ s, e.2 = MapVal.bare s) ∧ mapPatientId e.2 = none)
    ∧ (∀ data : List SentenceRec,
        (embedStageMapping data).map Prod.fst = List.range data.length)
    ∧ (∀ (docs : List PatientDoc) (e : ℕ × MapVal), e ∈ buildMapping docs →
        ∃ pid vid, e.2 = MapVal.entry pid vid ∧ mapPatientId e.2 = some pid)
    ∧ ∀ (db : List Patient) (qid s : String) (m : List (ℕ × MapVal)) (hit : ℤ × ℚ),
        resolveEntry m hit.1 = some (MapVal.bare s) →
        resultRow db qid m hit
          = Except.error "TypeError: string indices must be integers" := by
  refine ⟨?_, embedStageMapping_keys, ?_, ?_⟩
  · intro data e he
    obtain ⟨s, hs⟩ := embedLoop_bare data (data.length - 0) 0 (le_refl _) e he
    exact ⟨⟨s, hs⟩, by rw [hs]; rfl⟩
  · intro docs e he
    obtain ⟨p, hp, rfl⟩ := List.mem_map.mp he
    exact ⟨p.2.patient_id, p.2.vector_id, rfl, rfl⟩
  · intro db qid s m hit hres
    unfold resultRow
    rw [hres]

theorem C10_witness :
    ((∃ s, ((0 : ℕ), MapVal.bare (vectorIdOf "0001")).2 = MapVal.bare s)
      ∧ mapPatientId ((0 : ℕ), MapVal.bare (vectorIdOf "0001")).2 = none)
    ∧ ∃ pid vid, ((0 : ℕ), MapVal.entry "p1" (some "v1")).2 = MapVal.entry pid vid
        ∧ mapPatientId ((0 : ℕ), MapVal.entry "p1" (some "v1")).2 = some pid :=
  ⟨C10_mapping_formats_incompatible.1 sampleSentences (0, MapVal.bare (vectorIdOf "0001"))
    (by
      unfold embedStageMapping
      rw [embedLoop, dif_pos (by decide)]
      rw [embedLoop, dif_neg (by decide)]
      decide),
   C10_mapping_formats_incompatible.2.2.1 sampleDocs (0, MapVal.entry "p1" (some "v1"))
    (by decide)⟩

end PatientSim
